import Mathlib

/-!
Shallow embedding of the easypubsub publish/subscribe library
(`src/Publisher.ts`, `src/Subscription.ts`), together with theorems checking
the natural-language specification against it.

Modelling conventions:
* JavaScript `Map` objects are embedded as lists in insertion order;
  `Map.set` of a fresh key appends, `Map.delete` removes the (unique) entry.
* A `Map` iterator obtained from `keys()` is LIVE: entries deleted before the
  iterator reaches them are skipped and entries added during iteration are
  visited (tc39 Map iterator semantics).  Since subscription keys issued by the
  monotone counter are never reused, the iterator is faithfully modelled by
  repeatedly visiting the first entry of the current map not yet visited.
* Consumer functions are defunctionalized: a consumer synchronously performs a
  list of publisher-API side effects (calling unsubscribe handles, subscribing)
  and either returns `undefined` or a pending computation (a `Promise`).
* `Promise` values are tagged by the key of the subscription whose consumer
  produced them; resolution is modelled by an assignment of resolution times.
-/

namespace EasyPubSub

/-- A message topic: `type Topic = string | number` (Subscription.ts).  The
numeric topics exercised by the repository are integers, embedded as `Int`.
JavaScript strict equality `===` between two topics holds exactly when they are
the same alternative with equal payloads, which is equality of this type. -/
inductive Topic where
  | str (s : String)
  | num (n : Int)
deriving DecidableEq, Repr

/-- `givenTopic.toString()` as used by the regexp branch of the topic matcher:
a string topic is itself, a numeric topic is its decimal rendering. -/
def Topic.toStr : Topic → String
  | .str s => s
  | .num n => toString n

/-- Model of a JavaScript `RegExp` by its observable match behaviour: `test s`
is true exactly when `s.match(re) !== null`, i.e. when the pattern matches
somewhere within `s` (containment, not full-match).  The regex engine is
external to this repository, so it is embedded extensionally. -/
structure RegExpM where
  test : String → Bool

/-- `type TopicPattern = Topic | RegExp` (Subscription.ts). -/
inductive TopicPattern where
  | value (t : Topic)
  | re (r : RegExpM)

/-- Resolved filtering options as consumed by the `Subscription` constructor
(`FilteringOptions<Msg>`): `strictTopicFiltering` always present, the pattern
and the content filter optional. -/
structure FilteringOptions (Msg : Type) where
  strictTopicFiltering : Bool
  topicPattern : Option TopicPattern := none
  contentFilter : Option (Msg → Bool) := none

/-- Modelled from the spec: the calling conventions accepted by
`buildFilteringOptions` (`src/FilteringOptions.ts` is not among the provided
sources; only its tests are): no argument, a bare topic-pattern shorthand, or a
partial options object. -/
inductive FilteringCreationProps (Msg : Type) where
  | absent
  | shorthand (p : TopicPattern)
  | props (topicPattern : Option TopicPattern) (strictTopicFiltering : Option Bool)
      (contentFilter : Option (Msg → Bool))

/-- Modelled from the spec: `buildFilteringOptions` normalization
(`src/FilteringOptions.ts` is missing from the provided sources).  Per spec §3
and the FilteringOptions test-suite: no input yields `strictTopicFiltering :=
false` and nothing else; a bare pattern yields that pattern with
`strictTopicFiltering := true`; an options object keeps the supplied fields,
with `strictTopicFiltering` defaulting to whether a pattern was supplied. -/
def buildFilteringOptions {Msg : Type} : FilteringCreationProps Msg → FilteringOptions Msg
  | .absent => { strictTopicFiltering := false }
  | .shorthand p => { strictTopicFiltering := true, topicPattern := some p }
  | .props tp st cf =>
      { strictTopicFiltering := st.getD tp.isSome, topicPattern := tp, contentFilter := cf }

mutual
/-- Dynamic behaviour of a `ConsumeFunction<Msg>`: invoked on a message it
synchronously performs publisher-API side effects (`acts`) and either returns
`undefined` (`pendingRet msg = false`, a synchronous consumer) or a `Promise`
(`pendingRet msg = true`, an asynchronous consumer). -/
inductive Consumer (Msg : Type) : Type where
  | mk (acts : Msg → List (Act Msg)) (pendingRet : Msg → Bool)

/-- A synchronous publisher-API side effect a consumer can perform: calling an
unsubscribe handle (the handle for the subscription keyed `key`), or calling
`publisher.subscribe` with creation props and a consumer for the new
subscription. -/
inductive Act (Msg : Type) : Type where
  | callUnsub (key : Int)
  | callSubscribe (props : FilteringCreationProps Msg) (c : Consumer Msg)
end

variable {Msg : Type}

/-- The effect-list component of a consumer. -/
def Consumer.acts : Consumer Msg → Msg → List (Act Msg)
  | .mk a _ => a

/-- Whether the consumer returns a pending computation on a given message. -/
def Consumer.pendingRet : Consumer Msg → Msg → Bool
  | .mk _ p => p

/-- Field-for-field mirror of the keyed `Subscription<Msg>` class: `_key`
(exposed through the `key` getter), `consume`, `strictTopicFiltering`,
`topicPattern`, `contentFilter`.  Subscription instances are compared by `key`:
the monotone counter in `getOrCreate` gives every created instance a distinct
key, so key equality coincides with JavaScript instance identity. -/
structure Subscription (Msg : Type) where
  key : Int
  consume : Consumer Msg
  strictTopicFiltering : Bool
  topicPattern : Option TopicPattern := none
  contentFilter : Option (Msg → Bool) := none

/-- The `topicMatcher` closure built in the `Subscription` constructor when
`topicPattern` is defined: for a plain string/number pattern, strict equality
of the given topic against it; for a `RegExp` pattern,
`givenTopic.toString().match(topicPattern) !== null`. -/
def topicMatcher : TopicPattern → Topic → Bool
  | .value v, givenTopic => givenTopic == v
  | .re r, givenTopic => r.test givenTopic.toStr

/-- `Subscription.matchTopic(topic?)`: no pattern configured passes; a
configured pattern with no topic argument passes iff filtering is not strict;
otherwise the precomputed matcher decides. -/
def Subscription.matchTopic (sub : Subscription Msg) (topic : Option Topic) : Bool :=
  match sub.topicPattern with
  | none => true
  | some p =>
    match topic with
    | none => !sub.strictTopicFiltering
    | some t => topicMatcher p t

/-- The content check, the right operand of `check`:
`!this.contentFilter || this.contentFilter(msg)`. -/
def contentPass (sub : Subscription Msg) (msg : Msg) : Bool :=
  match sub.contentFilter with
  | none => true
  | some f => f msg

/-- `Subscription.check(msg, topic?)`:
`this.matchTopic(topic) && (!this.contentFilter || this.contentFilter(msg))`. -/
def Subscription.check (sub : Subscription Msg) (msg : Msg) (topic : Option Topic) : Bool :=
  sub.matchTopic topic && contentPass sub msg

/-- Instrumented variant of `check` that additionally counts how many times the
`contentFilter` predicate is invoked, mirroring JavaScript's left-to-right
short-circuit evaluation of `matchTopic(topic) && (!contentFilter ||
contentFilter(msg))`: when the topic check fails, the right operand is never
evaluated. -/
def Subscription.checkFilterCalls (sub : Subscription Msg) (msg : Msg) (topic : Option Topic) :
    Bool × Nat :=
  if sub.matchTopic topic then
    match sub.contentFilter with
    | none => (true, 0)
    | some f => (f msg, 1)
  else (false, 0)

/-- Global state of the embedding: the publisher's `subscriptions` map in
insertion order (the `Unsubscribe` value stored with each entry is the closure
deleting exactly that entry, so it is determined by the entry and only the
subscriptions are kept), together with the `Subscription` class's static state:
the `lastId` counter (initially `-1`) and the `uniqueSubscriptions` registry in
insertion order. -/
structure World (Msg : Type) where
  subscriptions : List (Subscription Msg)
  lastId : Int
  uniqueSubscriptions : List (Int × Subscription Msg)

/-- The state of a freshly created `Publisher` with the pristine static
`Subscription` state. -/
def initialWorld : World Msg := ⟨[], -1, []⟩

/-- `publisher.subscriptionsNumber`: the size of the subscriptions map. -/
def subscriptionsNumber (w : World Msg) : Nat := w.subscriptions.length

/-- The keys of the publisher's live subscriptions, in insertion order. -/
def pubKeys (w : World Msg) : List Int := w.subscriptions.map (·.key)

/-- The keys present in the static `uniqueSubscriptions` registry. -/
def regKeys (w : World Msg) : List Int := w.uniqueSubscriptions.map (·.1)

/-- The `new Subscription(key, consume, opts.strictTopicFiltering,
opts.topicPattern, opts.contentFilter)` constructor call inside
`getOrCreate`. -/
def mkSubscription (key : Int) (consume : Consumer Msg) (opts : FilteringOptions Msg) :
    Subscription Msg :=
  { key := key, consume := consume,
    strictTopicFiltering := opts.strictTopicFiltering,
    topicPattern := opts.topicPattern, contentFilter := opts.contentFilter }

/-- `Subscription.getOrCreate(consume, opts)` (invoked as `Subscription.create`
from `Publisher.subscribe`; the two names denote the creation entry point of
the keyed `Subscription` class): increment `lastId` into a fresh key, return
the registered instance if the registry already holds that key, otherwise
construct the instance, register it and return it. -/
def getOrCreate (w : World Msg) (consume : Consumer Msg) (opts : FilteringOptions Msg) :
    World Msg × Subscription Msg :=
  let key := w.lastId + 1
  let w1 : World Msg := { w with lastId := key }
  match w1.uniqueSubscriptions.find? (·.1 == key) with
  | some e => (w1, e.2)
  | none =>
    let subscription := mkSubscription key consume opts
    ({ w1 with uniqueSubscriptions := w1.uniqueSubscriptions ++ [(key, subscription)] },
      subscription)

/-- `Subscription.unref(key)`: record whether the registry holds the key,
delete the entry if so, and return whether it existed. -/
def unref (w : World Msg) (key : Int) : World Msg × Bool :=
  let existed := w.uniqueSubscriptions.any (·.1 == key)
  if existed then
    ({ w with uniqueSubscriptions := w.uniqueSubscriptions.eraseP (·.1 == key) }, existed)
  else (w, existed)

/-- Calling the `unsubscribe` closure created in `Publisher.subscribe`
(`() => this.subscriptions.delete(subscription)`) for the subscription keyed
`key`: delete that entry from the publisher's map, a no-op when absent. -/
def callUnsub (key : Int) (w : World Msg) : World Msg :=
  { w with subscriptions := w.subscriptions.eraseP (·.key == key) }

/-- `Publisher.subscribe` after option normalization: create the subscription
via `getOrCreate`; if the map already has this instance return its stored
unsubscribe handle, otherwise store the new entry with its handle.  The
returned handle is identified by the subscription's key (calling it is
`callUnsub` of that key). -/
def subscribeOpts (w : World Msg) (consume : Consumer Msg) (opts : FilteringOptions Msg) :
    World Msg × Int :=
  let res := getOrCreate w consume opts
  let w1 := res.1
  let subscription := res.2
  if w1.subscriptions.any (·.key == subscription.key) then
    (w1, subscription.key)
  else
    ({ w1 with subscriptions := w1.subscriptions ++ [subscription] }, subscription.key)

/-- `Publisher.subscribe(consume, filteringOptions?)`: normalize the options
then register as in `subscribeOpts`. -/
def subscribe (w : World Msg) (consume : Consumer Msg) (props : FilteringCreationProps Msg) :
    World Msg × Int :=
  subscribeOpts w consume (buildFilteringOptions props)

/-- Perform one consumer side effect on the world. -/
def runAct (w : World Msg) : Act Msg → World Msg
  | .callUnsub k => callUnsub k w
  | .callSubscribe props c => (subscribe w c props).1

/-- Perform a consumer's side effects in order. -/
def runActs (w : World Msg) (acts : List (Act Msg)) : World Msg :=
  acts.foldl runAct w

/-- Invoking `sub.consume(msg)`: perform the consumer's synchronous side
effects and report whether the call returned a pending computation. -/
def runConsumer (c : Consumer Msg) (msg : Msg) (w : World Msg) : World Msg × Bool :=
  (runActs w (c.acts msg), c.pendingRet msg)

/-- The reduce loop of the emitter returned by `Publisher.getEmitter`.  The
code folds over the LIVE iterator `this.subscriptions.keys()`: at each step the
iterator yields the first entry of the CURRENT map, in insertion order, that it
has not yielded before (`visited` holds the yielded keys; keys are never reused
so this is exactly the tc39 Map iterator).  For each yielded subscription the
loop evaluates `check(msg, topic)` and, on a match, invokes the consumer —
whose synchronous side effects may mutate the map — collecting a pending
computation when one is returned.  Results: the final world, the keys whose
match predicate was evaluated in order, and the invoked keys paired with
whether their consumer returned a pending computation.  `fuel` bounds the
number of iterator steps (consumers may subscribe during the emission, so the
iteration is not bounded by the initial map size); `none` means it ran out. -/
def emitLoop (msg : Msg) (topic : Option Topic) :
    Nat → World Msg → List Int → Option (World Msg × List Int × List (Int × Bool))
  | 0, _, _ => none
  | fuel+1, w, visited =>
    match w.subscriptions.find? (fun s => !(visited.contains s.key)) with
    | none => some (w, [], [])
    | some s =>
      if s.check msg topic then
        let res := runConsumer s.consume msg w
        match emitLoop msg topic fuel res.1 (visited ++ [s.key]) with
        | none => none
        | some (w2, ev, inv) => some (w2, s.key :: ev, (s.key, res.2) :: inv)
      else
        match emitLoop msg topic fuel w (visited ++ [s.key]) with
        | none => none
        | some (w2, ev, inv) => some (w2, s.key :: ev, inv)

/-- The pending computations collected by the reduce
(`consumptionFunctionsToWait`), tagged by subscription key, in invocation
order. -/
def pendingOf (inv : List (Int × Bool)) : List Int :=
  (inv.filter (·.2)).map (·.1)

/-- What one emission returns: `sync` models returning `undefined` (the
emission completed synchronously), `pending ps` models returning
`Promise.all(ps).then(() => {})`. -/
inductive EmitResult where
  | sync
  | pending (ps : List Int)
deriving DecidableEq, Repr

/-- The final step of the emitter: if any pending computations were collected
return their join, otherwise return `undefined`. -/
def emitResult (inv : List (Int × Bool)) : EmitResult :=
  if 0 < (pendingOf inv).length then .pending (pendingOf inv) else .sync

/-- One call of the emitter returned by `getEmitter`, with explicit fuel. -/
def emit (fuel : Nat) (w : World Msg) (msg : Msg) (topic : Option Topic) :
    Option (World Msg × List Int × List (Int × Bool) × EmitResult) :=
  match emitLoop msg topic fuel w [] with
  | none => none
  | some (w1, ev, inv) => some (w1, ev, inv, emitResult inv)

/-- Modelled from the external Promise facility: given resolution times `ρ` for
the individual pending computations, whether an emission's own completion is
resolved at time `t`.  A synchronous (`undefined`) return is complete
immediately; `Promise.all(ps)` is resolved exactly when every member is. -/
def EmitResult.resolvedAt : EmitResult → (Int → Nat) → Nat → Prop
  | .sync, _, _ => True
  | .pending ps, ρ, t => ∀ p ∈ ps, ρ p ≤ t

/-- Well-formedness of the global state, maintained by the API: live and
registered keys are pairwise distinct and never exceed the `lastId` counter. -/
def WF (w : World Msg) : Prop :=
  (pubKeys w).Nodup ∧ (∀ s ∈ w.subscriptions, s.key ≤ w.lastId) ∧
    (regKeys w).Nodup ∧ (∀ e ∈ w.uniqueSubscriptions, e.1 ≤ w.lastId)

/-- A client-side API call against a publisher: a `subscribe` call, or a call
of the revoke handle returned by the `i`-th `subscribe` of the history. -/
inductive Op (Msg : Type) where
  | subscribeOp (c : Consumer Msg) (props : FilteringCreationProps Msg)
  | revokeOp (i : Nat)

/-- Run a history of API calls, threading the world and the list of issued
revoke handles (a handle is identified by the key of the subscription its
closure deletes).  A `revokeOp` naming a handle that was never issued is a
no-op. -/
def runOps : List (Op Msg) → World Msg → List Int → World Msg × List Int
  | [], w, handles => (w, handles)
  | .subscribeOp c props :: ops, w, handles =>
    let r := subscribe w c props
    runOps ops r.1 (handles ++ [r.2])
  | .revokeOp i :: ops, w, handles =>
    match handles[i]? with
    | some k => runOps ops (callUnsub k w) handles
    | none => runOps ops w handles

/-- Turn off the liveness flag of every ledger registration keyed `k`. -/
def flipOff (k : Int) (regs : List (Int × Bool)) : List (Int × Bool) :=
  regs.map fun e => if e.1 = k then (e.1, false) else e

/-- Specification-level registration ledger for the same API history: each
`subscribe` appends a registration `(key, live)`, and revoking an issued handle
marks its registration as no longer live.  The second component threads the
identity counter. -/
def simpleRun : List (Op Msg) → List (Int × Bool) → Int → List (Int × Bool) × Int
  | [], regs, n => (regs, n)
  | .subscribeOp _ _ :: ops, regs, n => simpleRun ops (regs ++ [(n + 1, true)]) (n + 1)
  | .revokeOp i :: ops, regs, n =>
    match regs[i]? with
    | some e => simpleRun ops (flipOff e.1 regs) n
    | none => simpleRun ops regs n

/-- The keys of the not-yet-revoked registrations of a ledger. -/
def liveKeys (regs : List (Int × Bool)) : List Int :=
  (regs.filter (·.2)).map (·.1)

/-- A consumer that performs no side effect and returns `undefined`. -/
def pureConsumer : Consumer Msg := .mk (fun _ => []) (fun _ => false)

/-- A consumer that performs no side effect and returns a `Promise`. -/
def asyncConsumer : Consumer Msg := .mk (fun _ => []) (fun _ => true)

/-- Concrete scenario for the emission-iteration claims: the consumer of the
first subscription, when invoked, revokes the second subscription and
subscribes a fresh one (with a pure consumer). -/
def revokerConsumer : Consumer Nat :=
  .mk (fun _ => [.callUnsub 1, .callSubscribe .absent pureConsumer]) (fun _ => false)

/-- First live subscription of the scenario (key 0): no filtering, the
revoking/subscribing consumer. -/
def scSubA : Subscription Nat :=
  { key := 0, consume := revokerConsumer, strictTopicFiltering := false }

/-- Second live subscription of the scenario (key 1): no filtering, pure
consumer. -/
def scSubB : Subscription Nat :=
  { key := 1, consume := pureConsumer, strictTopicFiltering := false }

/-- The scenario world: both subscriptions live and registered, counter at 1. -/
def scWorld : World Nat :=
  ⟨[scSubA, scSubB], 1, [(0, scSubA), (1, scSubB)]⟩

/-- A subscription filtering strictly on the exact topic `"specific-topic"`. -/
def subExact : Subscription Nat :=
  { key := 0, consume := pureConsumer, strictTopicFiltering := true,
    topicPattern := some (.value (.str "specific-topic")) }

/-- Match behaviour of the regexp `^4\d$` of the Subscription test-suite:
it matches within `s` exactly when `s` is a two-character string starting
with `4` whose second character is a digit. -/
def regexFourDigit : RegExpM :=
  ⟨fun s => s.length == 2 && s.front == '4' && s.back.isDigit⟩

/-- A subscription filtering strictly on the regexp `^4\d$`. -/
def subRegex : Subscription Nat :=
  { key := 0, consume := pureConsumer, strictTopicFiltering := true,
    topicPattern := some (.re regexFourDigit) }

/-- An unfiltered subscription with a synchronous consumer (key 0). -/
def subSync : Subscription Nat :=
  { key := 0, consume := pureConsumer, strictTopicFiltering := false }

/-- An unfiltered subscription with an asynchronous consumer (key 1). -/
def subAsync : Subscription Nat :=
  { key := 1, consume := asyncConsumer, strictTopicFiltering := false }

/-- A world with one synchronous and one asynchronous subscriber. -/
def joinWorld : World Nat :=
  ⟨[subSync, subAsync], 1, [(0, subSync), (1, subAsync)]⟩

/-- Invariant tying an already-revoked key to the evolving world during an
emission: the key is not live, it was already issued (at most `lastId`), and
every live or registered key is at most `lastId`. -/
def FreshInv (k : Int) (w : World Msg) : Prop :=
  k ∉ pubKeys w ∧ k ≤ w.lastId ∧
    (∀ s ∈ w.subscriptions, s.key ≤ w.lastId) ∧
    (∀ e ∈ w.uniqueSubscriptions, e.1 ≤ w.lastId)

/-- Parametric live-iteration scenario, first subscription (key 0): its
consumer, when invoked, revokes key 1 and subscribes a fresh pure consumer. -/
def liveSubA (pendA : Msg → Bool) : Subscription Msg :=
  { key := 0,
    consume := .mk (fun _ => [.callUnsub 1, .callSubscribe .absent pureConsumer]) pendA,
    strictTopicFiltering := false }

/-- Parametric live-iteration scenario, second subscription (key 1): a
consumer without side effects. -/
def liveSubB (pendB : Msg → Bool) : Subscription Msg :=
  { key := 1, consume := .mk (fun _ => []) pendB, strictTopicFiltering := false }

/-- Parametric live-iteration world: both subscriptions live, counter at 1. -/
def liveWorld (pendA pendB : Msg → Bool) : World Msg :=
  ⟨[liveSubA pendA, liveSubB pendB], 1, [(0, liveSubA pendA), (1, liveSubB pendB)]⟩

end EasyPubSub

namespace EasyPubSub

variable {Msg : Type}

/-- C5: for every subscription whose `topicPattern` is set and every message
checked without a topic argument, the topic check passes iff
`strictTopicFiltering` is false: with strict filtering the message is
rejected, without strict filtering it is accepted regardless of the pattern,
subject only to the content filter. -/
theorem strict_filtering_decides_topicless_messages (sub : Subscription Msg) (msg : Msg)
    (p : TopicPattern) (hp : sub.topicPattern = some p) :
    (sub.matchTopic none = !sub.strictTopicFiltering) ∧
    (sub.strictTopicFiltering = true → sub.check msg none = false) ∧
    (sub.strictTopicFiltering = false → sub.check msg none = contentPass sub msg) := by
  have hm : sub.matchTopic none = !sub.strictTopicFiltering := by
    unfold Subscription.matchTopic
    rw [hp]
  refine ⟨hm, ?_, ?_⟩ <;> intro hs <;> simp [Subscription.check, hm, hs]

/-- Witness for C5: a strict subscription with a pattern rejects a topicless
message, a non-strict one accepts it. -/
theorem strict_filtering_decides_topicless_messages_witness :
    subExact.check 7 none = false ∧
    ({ subExact with strictTopicFiltering := false } : Subscription Nat).check 7 none =
      contentPass { subExact with strictTopicFiltering := false } 7 :=
  ⟨(strict_filtering_decides_topicless_messages subExact 7 _ rfl).2.1 rfl,
   (strict_filtering_decides_topicless_messages _ 7 (.value (.str "specific-topic")) rfl).2.2 rfl⟩

/-- C6: a plain string/number `topicPattern` makes the topic check on a
supplied topic exact equality with that value; a regular-expression
`topicPattern` converts the supplied topic (numeric topics included) to its
string form and passes iff the pattern matches somewhere within it (the
containment behaviour `RegExpM.test` models). -/
theorem topic_matching_semantics (sub : Subscription Msg) (v : Topic) (r : RegExpM)
    (t : Topic) (n : Int) :
    (sub.topicPattern = some (.value v) →
      sub.matchTopic (some t) = (t == v) ∧
      (sub.matchTopic (some t) = true ↔ t = v)) ∧
    (sub.topicPattern = some (.re r) →
      sub.matchTopic (some t) = r.test t.toStr ∧
      sub.matchTopic (some (.num n)) = r.test (toString n)) := by
  constructor <;> intro hp <;> unfold Subscription.matchTopic <;> rw [hp] <;>
    simp [topicMatcher, Topic.toStr]

/-- Witness for C6: exact matching accepts the equal topic and rejects another;
the regexp pattern accepts the numeric topic 42 through its string form and
rejects 52. -/
theorem topic_matching_semantics_witness :
    subExact.matchTopic (some (.str "specific-topic")) = true ∧
    subExact.matchTopic (some (.str "other-topic")) = false ∧
    subRegex.matchTopic (some (.num 42)) = true ∧
    subRegex.matchTopic (some (.num 52)) = false := by
  refine ⟨?_, ?_, ?_, ?_⟩
  · exact ((topic_matching_semantics subExact (.str "specific-topic") regexFourDigit
      (.str "specific-topic") 0).1 rfl).2.mpr rfl
  · have h := ((topic_matching_semantics subExact (.str "specific-topic") regexFourDigit
      (.str "other-topic") 0).1 rfl).1
    rw [h]; decide
  · have h := ((topic_matching_semantics subRegex (.str "specific-topic") regexFourDigit
      (.str "x") 42).2 rfl).2
    rw [h]; decide
  · have h := ((topic_matching_semantics subRegex (.str "specific-topic") regexFourDigit
      (.str "x") 52).2 rfl).2
    rw [h]; decide

/-- C7: `check` is the conjunction of the topic check and the content check,
the content check passing iff no `contentFilter` is configured or the filter
accepts the message; and when the topic check fails, the `contentFilter`
predicate is not invoked at all (the instrumented invocation count is zero). -/
theorem check_conjunction_and_short_circuit (sub : Subscription Msg) (msg : Msg)
    (topic : Option Topic) :
    (sub.check msg topic = (sub.matchTopic topic && contentPass sub msg)) ∧
    (contentPass sub msg = true ↔
      sub.contentFilter = none ∨ ∃ f, sub.contentFilter = some f ∧ f msg = true) ∧
    ((sub.checkFilterCalls msg topic).1 = sub.check msg topic) ∧
    (sub.matchTopic topic = false → (sub.checkFilterCalls msg topic).2 = 0) := by
  refine ⟨rfl, ?_, ?_, ?_⟩
  · cases hf : sub.contentFilter with
    | none => simp [contentPass, hf]
    | some f => simp [contentPass, hf]
  · unfold Subscription.checkFilterCalls Subscription.check
    cases hm : sub.matchTopic topic
    · simp [hm]
    · cases hf : sub.contentFilter <;> simp [hm, hf, contentPass]
  · intro hm
    unfold Subscription.checkFilterCalls
    simp [hm]

/-- Witness for C7: on a non-matching topic the filter-invocation count of the
instrumented check is zero and the check itself fails. -/
theorem check_conjunction_and_short_circuit_witness :
    (subExact.checkFilterCalls 3 (some (.str "other-topic"))).2 = 0 ∧
    subExact.check 3 (some (.str "other-topic")) = false := by
  have h := check_conjunction_and_short_circuit subExact 3 (some (.str "other-topic"))
  refine ⟨h.2.2.2 (by decide), ?_⟩
  rw [h.1]; decide

/-- Deleting every element carrying a key from a list whose keys are
duplicate-free eliminates that key from the projected key list. -/
theorem not_mem_map_eraseP {α : Type} (f : α → Int) (l : List α) (k : Int)
    (h : (l.map f).Nodup) : k ∉ (l.eraseP fun a => f a == k).map f := by
  induction l with
  | nil => simp
  | cons a l ih =>
    simp only [List.map_cons, List.nodup_cons] at h
    by_cases ha : f a = k
    · rw [List.eraseP_cons_of_pos (by simp [ha])]
      rw [← ha]
      exact h.1
    · rw [List.eraseP_cons_of_neg (by simp [ha])]
      simp only [List.map_cons, List.mem_cons, not_or]
      exact ⟨fun hk => ha hk.symm, ih h.2⟩

/-- C4: `unref(key)` behaves as a map-delete on the identity registry: it
returns true exactly when an entry existed for the key, the resulting registry
is the original with the entry for the key deleted (so the identity slot is
freed: the key is no longer held by the registry), and a second `unref` of the
same key returns false. -/
theorem unref_is_map_delete (w : World Msg) (k : Int) (hnd : (regKeys w).Nodup) :
    ((unref w k).2 = true ↔ k ∈ regKeys w) ∧
    ((unref w k).1.uniqueSubscriptions = w.uniqueSubscriptions.eraseP (·.1 == k)) ∧
    k ∉ regKeys (unref w k).1 ∧
    (unref (unref w k).1 k).2 = false := by
  have hany : (w.uniqueSubscriptions.any (·.1 == k) = true) ↔ k ∈ regKeys w := by
    simp [regKeys]
  by_cases hex : w.uniqueSubscriptions.any (·.1 == k) = true
  · have hmem : k ∈ regKeys w := hany.mp hex
    have hout : k ∉ (w.uniqueSubscriptions.eraseP (·.1 == k)).map Prod.fst :=
      not_mem_map_eraseP Prod.fst w.uniqueSubscriptions k hnd
    have h1 : unref w k = ({ w with uniqueSubscriptions :=
        w.uniqueSubscriptions.eraseP (·.1 == k) }, true) := by
      simp [unref, hex]
    refine ⟨by simp [h1, hmem], by simp [h1], by simpa [h1, regKeys] using hout, ?_⟩
    have hex2 : ((w.uniqueSubscriptions.eraseP (·.1 == k)).any (·.1 == k)) = false := by
      simp only [List.any_eq_false, beq_iff_eq]
      intro e he hk
      exact hout (List.mem_map.mpr ⟨e, he, hk⟩)
    rw [h1]
    simp only [unref, hex2]
    simp
  · have hex' : w.uniqueSubscriptions.any (·.1 == k) = false := by
      cases h : w.uniqueSubscriptions.any (·.1 == k) with
      | false => rfl
      | true => exact absurd h hex
    have hnm : k ∉ regKeys w := fun hk => hex (hany.mpr hk)
    have hnone : ∀ e ∈ w.uniqueSubscriptions, ¬(e.1 == k) = true := by
      intro e he
      simp only [List.any_eq_false] at hex'
      exact hex' e he
    have h1 : unref w k = (w, false) := by
      simp [unref, hex']
    refine ⟨by simp [h1, hnm], ?_, by simpa [h1] using hnm, ?_⟩
    · rw [h1, List.eraseP_of_forall_not hnone]
    · rw [h1]
      simp [unref, hex']

/-- Witness for C4: deleting key 0 from the scenario registry succeeds, frees
the slot, and a second delete returns false. -/
theorem unref_is_map_delete_witness :
    ((unref scWorld 0).2 = true ↔ (0 : Int) ∈ regKeys scWorld) ∧
    ((unref scWorld 0).1.uniqueSubscriptions = scWorld.uniqueSubscriptions.eraseP (·.1 == 0)) ∧
    (0 : Int) ∉ regKeys (unref scWorld 0).1 ∧
    (unref (unref scWorld 0).1 0).2 = false :=
  unref_is_map_delete scWorld 0 (by decide)

/-- C8: a revoke handle is idempotent: calling it twice yields the same
publisher state as calling it once; the first call on a live subscription
decreases `subscriptionsNumber` by exactly one, and any call on a no longer
live subscription leaves the world unchanged. -/
theorem revoke_handle_idempotent (w : World Msg) (k : Int) (hnd : (pubKeys w).Nodup) :
    (callUnsub k (callUnsub k w) = callUnsub k w) ∧
    (k ∈ pubKeys w → subscriptionsNumber (callUnsub k w) + 1 = subscriptionsNumber w) ∧
    (k ∉ pubKeys w → callUnsub k w = w) := by
  have hout : k ∉ (w.subscriptions.eraseP fun s => s.key == k).map Subscription.key :=
    not_mem_map_eraseP Subscription.key w.subscriptions k hnd
  refine ⟨?_, ?_, ?_⟩
  · have hnone : ∀ s ∈ w.subscriptions.eraseP (·.key == k), ¬(s.key == k) = true := by
      intro s hs hk
      exact hout (List.mem_map.mpr ⟨s, hs, by simpa using hk⟩)
    simp only [callUnsub]
    rw [List.eraseP_of_forall_not hnone]
  · intro hk
    obtain ⟨s, hs, hsk⟩ := List.mem_map.mp hk
    have hlen : ((w.subscriptions.eraseP (·.key == k)).length = w.subscriptions.length - 1) :=
      List.length_eraseP_of_mem hs (by simpa using hsk)
    have hpos : 0 < w.subscriptions.length := List.length_pos_of_mem hs
    simp only [callUnsub, subscriptionsNumber, hlen]
    omega
  · intro hk
    have hnone : ∀ s ∈ w.subscriptions, ¬(s.key == k) = true := by
      intro s hs hsk
      exact hk (List.mem_map.mpr ⟨s, hs, by simpa using hsk⟩)
    simp only [callUnsub]
    rw [List.eraseP_of_forall_not hnone]

/-- Witness for C8: revoking key 0 of the scenario world twice equals revoking
it once, and the live count drops from 2 to 1 exactly once. -/
theorem revoke_handle_idempotent_witness :
    (callUnsub 0 (callUnsub 0 scWorld) = callUnsub 0 scWorld) ∧
    subscriptionsNumber (callUnsub 0 scWorld) + 1 = subscriptionsNumber scWorld := by
  have h := revoke_handle_idempotent scWorld 0 (by decide)
  exact ⟨h.1, h.2.1 (by decide)⟩

/-- C3: an emission completes synchronously, returning no pending result, iff
no invoked (matching) consumer returned a pending computation; otherwise it
returns a single pending completion, the join of all collected pending
computations, which is resolved exactly when every collected one is
resolved. -/
theorem emission_join_semantics (fuel : Nat) (w : World Msg) (msg : Msg)
    (topic : Option Topic) (w' : World Msg) (ev : List Int) (inv : List (Int × Bool))
    (res : EmitResult) (ρ : Int → Nat)
    (h : emit fuel w msg topic = some (w', ev, inv, res)) :
    (pendingOf inv = [] ↔ ∀ e ∈ inv, e.2 = false) ∧
    (pendingOf inv = [] → res = .sync ∧ ∀ t, res.resolvedAt ρ t) ∧
    (pendingOf inv ≠ [] → res = .pending (pendingOf inv) ∧
      ∀ t, (res.resolvedAt ρ t ↔ ∀ p ∈ pendingOf inv, ρ p ≤ t)) := by
  have hres : res = emitResult inv := by
    unfold emit at h
    cases hl : emitLoop msg topic fuel w [] with
    | none => rw [hl] at h; exact absurd h (by simp)
    | some r =>
      obtain ⟨w1, ev1, inv1⟩ := r
      rw [hl] at h
      simp only [Option.some.injEq, Prod.mk.injEq] at h
      rw [← h.2.2.2, h.2.2.1]
  refine ⟨?_, ?_, ?_⟩
  · simp [pendingOf]
  · intro hnil
    have : res = .sync := by
      rw [hres]; simp [emitResult, hnil]
    exact ⟨this, fun t => by rw [this]; trivial⟩
  · intro hne
    have hpos : 0 < (pendingOf inv).length :=
      List.length_pos.mpr hne
    have : res = .pending (pendingOf inv) := by
      rw [hres]; simp [emitResult, hpos]
    exact ⟨this, fun t => by rw [this]; exact Iff.rfl⟩

/-- Witness for C3: emitting to one synchronous and one asynchronous
subscriber collects exactly the asynchronous pending computation, and the
returned join resolves at a time iff that computation has resolved by it. -/
theorem emission_join_semantics_witness :
    (pendingOf [((0 : Int), false), (1, true)] ≠ []) ∧
    EmitResult.pending [1] = .pending (pendingOf [((0 : Int), false), (1, true)]) ∧
    ((EmitResult.pending [1]).resolvedAt (fun _ => 3) 5 ↔
      ∀ p ∈ pendingOf [((0 : Int), false), (1, true)], (fun _ => 3 : Int → Nat) p ≤ 5) := by
  have h := emission_join_semantics 3 joinWorld 0 none joinWorld [0, 1]
    [(0, false), (1, true)] (.pending [1]) (fun _ => 3) rfl
  have hne : pendingOf [((0 : Int), false), (1, true)] ≠ [] := by decide
  have h3 := h.2.2 hne
  exact ⟨hne, h3.1, h3.2 5⟩

/-- When every key already issued is at most `lastId`, `subscribeOpts` always
takes the creation path: the fresh key is `lastId + 1`, both `has` checks fail,
and the new subscription is appended to the registry and to the publisher's
map, its key being returned as the handle. -/
theorem subscribeOpts_eq (w : World Msg) (c : Consumer Msg) (opts : FilteringOptions Msg)
    (hreg : ∀ e ∈ w.uniqueSubscriptions, e.1 ≤ w.lastId)
    (hpub : ∀ s ∈ w.subscriptions, s.key ≤ w.lastId) :
    subscribeOpts w c opts =
      (⟨w.subscriptions ++ [mkSubscription (w.lastId + 1) c opts],
        w.lastId + 1,
        w.uniqueSubscriptions ++ [(w.lastId + 1, mkSubscription (w.lastId + 1) c opts)]⟩,
       w.lastId + 1) := by
  have hfind : w.uniqueSubscriptions.find? (·.1 == w.lastId + 1) = none := by
    rw [List.find?_eq_none]
    intro e he
    have := hreg e he
    simp only [beq_iff_eq]
    omega
  have hany : (w.subscriptions.any (·.key == w.lastId + 1)) = false := by
    simp only [List.any_eq_false, beq_iff_eq]
    intro s hs hk
    have := hpub s hs
    omega
  have hkey : (mkSubscription (w.lastId + 1) c opts).key = w.lastId + 1 := rfl
  simp only [subscribeOpts, getOrCreate, hfind, hkey, hany]
  simp

/-- C10: under the well-formedness invariant, every `subscribe` call creates a
fresh instance: its key `lastId + 1` strictly exceeds every previously issued
key (live or registered), even after any `unref`, so the instance is not
already present in the publisher's map, the early-return branch of `subscribe`
is not taken (the map is extended by exactly the new entry), and
`subscriptionsNumber` increases by exactly one; well-formedness is preserved
by `subscribe` and by `unref`. -/
theorem subscribe_always_fresh (w : World Msg) (c : Consumer Msg)
    (props : FilteringCreationProps Msg) (hwf : WF w) :
    ((subscribe w c props).2 = w.lastId + 1) ∧
    (∀ s ∈ w.subscriptions, s.key < (subscribe w c props).2) ∧
    (∀ e ∈ w.uniqueSubscriptions, e.1 < (subscribe w c props).2) ∧
    ((subscribe w c props).2 ∉ pubKeys w) ∧
    ((subscribe w c props).1.subscriptions =
      w.subscriptions ++ [mkSubscription (w.lastId + 1) c (buildFilteringOptions props)]) ∧
    ((subscribe w c props).1.uniqueSubscriptions = w.uniqueSubscriptions ++
      [(w.lastId + 1, mkSubscription (w.lastId + 1) c (buildFilteringOptions props))]) ∧
    (subscriptionsNumber (subscribe w c props).1 = subscriptionsNumber w + 1) ∧
    WF (subscribe w c props).1 ∧
    (∀ k, WF (unref w k).1) := by
  obtain ⟨hnd, hpub, hrnd, hreg⟩ := hwf
  have heq : subscribe w c props =
      (⟨w.subscriptions ++ [mkSubscription (w.lastId + 1) c (buildFilteringOptions props)],
        w.lastId + 1,
        w.uniqueSubscriptions ++
          [(w.lastId + 1, mkSubscription (w.lastId + 1) c (buildFilteringOptions props))]⟩,
       w.lastId + 1) :=
    subscribeOpts_eq w c (buildFilteringOptions props) hreg hpub
  refine ⟨by rw [heq], ?_, ?_, ?_, by rw [heq], by rw [heq], ?_, ?_, ?_⟩
  · intro s hs
    rw [heq]
    have := hpub s hs
    omega
  · intro e he
    rw [heq]
    have := hreg e he
    omega
  · rw [heq]
    intro hk
    obtain ⟨s, hs, hsk⟩ := List.mem_map.mp hk
    have := hpub s hs
    omega
  · rw [heq]
    simp [subscriptionsNumber]
  · rw [heq]
    refine ⟨?_, ?_, ?_, ?_⟩
    · show ((w.subscriptions ++
        [mkSubscription (w.lastId + 1) c (buildFilteringOptions props)]).map (·.key)).Nodup
      rw [List.map_append]
      rw [List.nodup_append]
      refine ⟨hnd, List.nodup_singleton _, ?_⟩
      intro a ha hb
      simp only [List.map_cons, List.map_nil, List.mem_singleton, mkSubscription] at hb
      obtain ⟨s, hs, hsk⟩ := List.mem_map.mp ha
      have := hpub s hs
      omega
    · intro s hs
      rcases List.mem_append.mp hs with h | h
      · have := hpub s h
        simp only []
        omega
      · simp only [List.mem_singleton] at h
        subst h
        simp [mkSubscription]
    · show ((w.uniqueSubscriptions ++
        [(w.lastId + 1, mkSubscription (w.lastId + 1) c (buildFilteringOptions props))]).map
          Prod.fst).Nodup
      rw [List.map_append]
      rw [List.nodup_append]
      refine ⟨hrnd, List.nodup_singleton _, ?_⟩
      intro a ha hb
      simp only [List.map_cons, List.map_nil, List.mem_singleton] at hb
      obtain ⟨e, he, hek⟩ := List.mem_map.mp ha
      have := hreg e he
      omega
    · intro e he
      rcases List.mem_append.mp he with h | h
      · have := hreg e h
        simp only []
        omega
      · simp only [List.mem_singleton] at h
        subst h
        simp
  · intro k
    by_cases hex : w.uniqueSubscriptions.any (·.1 == k) = true
    · have h1 : (unref w k).1 =
          ({ w with uniqueSubscriptions := w.uniqueSubscriptions.eraseP (·.1 == k) }) := by
        simp [unref, hex]
      rw [h1]
      refine ⟨hnd, hpub, ?_, ?_⟩
      · show ((w.uniqueSubscriptions.eraseP (·.1 == k)).map Prod.fst).Nodup
        exact ((List.eraseP_sublist w.uniqueSubscriptions).map Prod.fst).nodup hrnd
      · intro e he
        exact hreg e (List.mem_of_mem_eraseP he)
    · have hex' : w.uniqueSubscriptions.any (·.1 == k) = false := by
        cases h : w.uniqueSubscriptions.any (·.1 == k) with
        | false => rfl
        | true => exact absurd h hex
      have h1 : (unref w k).1 = w := by simp [unref, hex']
      rw [h1]
      exact ⟨hnd, hpub, hrnd, hreg⟩

/-- Witness for C10: subscribing on the scenario world issues key 2, one past
the counter, and raises the live count from 2 to 3. -/
theorem subscribe_always_fresh_witness :
    (subscribe scWorld pureConsumer .absent).2 = scWorld.lastId + 1 ∧
    subscriptionsNumber (subscribe scWorld pureConsumer .absent).1 =
      subscriptionsNumber scWorld + 1 := by
  have hwf : WF scWorld := ⟨by decide, by decide, by decide, by decide⟩
  have h := subscribe_always_fresh scWorld pureConsumer .absent hwf
  exact ⟨h.1, h.2.2.2.2.2.2.1⟩

/-- Emitting on a single-subscription publisher whose consumer performs no
side effect: the subscription is evaluated and, matching, its consumer is
invoked, yielding its pending flag. -/
theorem emit_single (s : Subscription Msg) (lastId : Int)
    (reg : List (Int × Subscription Msg)) (msg : Msg) (topic : Option Topic)
    (hc : s.check msg topic = true) (hpure : s.consume.acts msg = []) :
    emit 2 (⟨[s], lastId, reg⟩ : World Msg) msg topic =
      some (⟨[s], lastId, reg⟩, [s.key], [(s.key, s.consume.pendingRet msg)],
        emitResult [(s.key, s.consume.pendingRet msg)]) := by
  unfold emit
  simp only [emitLoop, List.find?, List.contains, List.elem_nil, Bool.not_false, hc,
    runConsumer, hpure, runActs, List.foldl_nil, if_true]
  simp [List.elem]

/-- C2: two `subscribe` calls with identical consumer and filtering options
create two distinct live subscriptions — `subscriptionsNumber` increases by
two — and return two distinct revoke handles; each handle removes exactly the
subscription created by its own call (the other duplicate stays); and, on a
fresh publisher, after revoking one duplicate the remaining one still receives
matching messages (its consumer is the only one invoked by an emission whose
message its check accepts). -/
theorem duplicate_subscriptions_independent (w : World Msg) (c : Consumer Msg)
    (props : FilteringCreationProps Msg) (pend : Msg → Bool) (msg : Msg)
    (topic : Option Topic) (hwf : WF w)
    (hmatch : (mkSubscription 1 (Consumer.mk (fun _ => []) pend)
        (buildFilteringOptions props)).check msg topic = true) :
    ((subscribe w c props).2 ≠ (subscribe (subscribe w c props).1 c props).2) ∧
    (subscriptionsNumber (subscribe (subscribe w c props).1 c props).1 =
      subscriptionsNumber w + 2) ∧
    ((callUnsub (subscribe w c props).2
          (subscribe (subscribe w c props).1 c props).1).subscriptions =
      w.subscriptions ++
        [mkSubscription (w.lastId + 1 + 1) c (buildFilteringOptions props)]) ∧
    ((callUnsub (subscribe (subscribe w c props).1 c props).2
          (subscribe (subscribe w c props).1 c props).1).subscriptions =
      w.subscriptions ++ [mkSubscription (w.lastId + 1) c (buildFilteringOptions props)]) ∧
    ((emit 2 (callUnsub
          (subscribe ((initialWorld : World Msg)) (Consumer.mk (fun _ => []) pend) props).2
          (subscribe
            (subscribe ((initialWorld : World Msg)) (Consumer.mk (fun _ => []) pend) props).1
            (Consumer.mk (fun _ => []) pend) props).1) msg topic).map
        (fun r => r.2.2.1) = some [(1, pend msg)]) := by
  obtain ⟨hnd, hpub, hrnd, hreg⟩ := hwf
  have heq1 : subscribe w c props =
      (⟨w.subscriptions ++ [mkSubscription (w.lastId + 1) c (buildFilteringOptions props)],
        w.lastId + 1,
        w.uniqueSubscriptions ++
          [(w.lastId + 1, mkSubscription (w.lastId + 1) c (buildFilteringOptions props))]⟩,
       w.lastId + 1) :=
    subscribeOpts_eq w c (buildFilteringOptions props) hreg hpub
  have hpub1 : ∀ s ∈ (subscribe w c props).1.subscriptions,
      s.key ≤ (subscribe w c props).1.lastId := by
    rw [heq1]
    intro s hs
    rcases List.mem_append.mp hs with h | h
    · have := hpub s h
      simp only []
      omega
    · simp only [List.mem_singleton] at h
      subst h
      simp [mkSubscription]
  have hreg1 : ∀ e ∈ (subscribe w c props).1.uniqueSubscriptions,
      e.1 ≤ (subscribe w c props).1.lastId := by
    rw [heq1]
    intro e he
    rcases List.mem_append.mp he with h | h
    · have := hreg e h
      simp only []
      omega
    · simp only [List.mem_singleton] at h
      subst h
      simp
  have heq2 : subscribe (subscribe w c props).1 c props =
      (⟨(subscribe w c props).1.subscriptions ++
          [mkSubscription ((subscribe w c props).1.lastId + 1) c (buildFilteringOptions props)],
        (subscribe w c props).1.lastId + 1,
        (subscribe w c props).1.uniqueSubscriptions ++
          [((subscribe w c props).1.lastId + 1,
            mkSubscription ((subscribe w c props).1.lastId + 1) c
              (buildFilteringOptions props))]⟩,
       (subscribe w c props).1.lastId + 1) :=
    subscribeOpts_eq (subscribe w c props).1 c (buildFilteringOptions props) hreg1 hpub1
  have hL1 : (subscribe w c props).1.lastId = w.lastId + 1 := by rw [heq1]
  have hprefix : ∀ b ∈ w.subscriptions, ¬(b.key == w.lastId + 1) = true := by
    intro b hb hk
    have := hpub b hb
    simp only [beq_iff_eq] at hk
    omega
  have hprefix2 : ∀ b ∈ w.subscriptions, ¬(b.key == w.lastId + 1 + 1) = true := by
    intro b hb hk
    have := hpub b hb
    simp only [beq_iff_eq] at hk
    omega
  refine ⟨?_, ?_, ?_, ?_, ?_⟩
  · rw [heq2, heq1]
    simp only []
    omega
  · rw [heq2, heq1]
    simp [subscriptionsNumber]
  · rw [heq2, heq1]
    simp only [callUnsub, List.append_assoc]
    rw [List.eraseP_append_right _ hprefix]
    simp only [List.singleton_append]
    rw [List.eraseP_cons_of_pos (by simp [mkSubscription])]
  · rw [heq2, heq1]
    simp only [callUnsub, List.append_assoc]
    rw [List.eraseP_append_right _ hprefix2]
    simp only [List.singleton_append]
    rw [List.eraseP_cons_of_neg (by simp [mkSubscription])]
    rw [List.eraseP_cons_of_pos (by simp [mkSubscription])]
  · have hi1 : subscribe ((initialWorld : World Msg)) (Consumer.mk (fun _ => []) pend) props =
        (⟨[mkSubscription 0 (Consumer.mk (fun _ => []) pend) (buildFilteringOptions props)], 0,
          [(0, mkSubscription 0 (Consumer.mk (fun _ => []) pend) (buildFilteringOptions props))]⟩,
         0) := by
      have h := subscribeOpts_eq ((initialWorld : World Msg)) (Consumer.mk (fun _ => []) pend)
        (buildFilteringOptions props) (by simp [initialWorld]) (by simp [initialWorld])
      simp only [initialWorld, List.nil_append] at h
      norm_num at h
      exact h
    have hi2 : subscribe
        (⟨[mkSubscription 0 (Consumer.mk (fun _ => []) pend) (buildFilteringOptions props)], 0,
          [(0, mkSubscription 0 (Consumer.mk (fun _ => []) pend) (buildFilteringOptions props))]⟩ :
          World Msg) (Consumer.mk (fun _ => []) pend) props =
        (⟨[mkSubscription 0 (Consumer.mk (fun _ => []) pend) (buildFilteringOptions props),
           mkSubscription 1 (Consumer.mk (fun _ => []) pend) (buildFilteringOptions props)], 1,
          [(0, mkSubscription 0 (Consumer.mk (fun _ => []) pend) (buildFilteringOptions props)),
           (1, mkSubscription 1 (Consumer.mk (fun _ => []) pend) (buildFilteringOptions props))]⟩,
         1) := by
      have h := subscribeOpts_eq
        (⟨[mkSubscription 0 (Consumer.mk (fun _ => []) pend) (buildFilteringOptions props)], 0,
          [(0, mkSubscription 0 (Consumer.mk (fun _ => []) pend) (buildFilteringOptions props))]⟩ :
          World Msg) (Consumer.mk (fun _ => []) pend) (buildFilteringOptions props)
        (by simp) (by simp [mkSubscription])
      norm_num at h
      exact h
    rw [hi1, hi2]
    have hu : callUnsub 0
        (⟨[mkSubscription 0 (Consumer.mk (fun _ => []) pend) (buildFilteringOptions props),
           mkSubscription 1 (Consumer.mk (fun _ => []) pend) (buildFilteringOptions props)], 1,
          [(0, mkSubscription 0 (Consumer.mk (fun _ => []) pend) (buildFilteringOptions props)),
           (1, mkSubscription 1 (Consumer.mk (fun _ => []) pend) (buildFilteringOptions props))]⟩ :
          World Msg) =
        ⟨[mkSubscription 1 (Consumer.mk (fun _ => []) pend) (buildFilteringOptions props)], 1,
         [(0, mkSubscription 0 (Consumer.mk (fun _ => []) pend) (buildFilteringOptions props)),
          (1, mkSubscription 1 (Consumer.mk (fun _ => []) pend) (buildFilteringOptions props))]⟩ := by
      simp only [callUnsub]
      rw [List.eraseP_cons_of_pos (by simp [mkSubscription])]
    rw [hu]
    rw [emit_single _ _ _ _ _ hmatch rfl]
    rfl

/-- Witness for C2 on a fresh publisher with a pure duplicate consumer: after
revoking the first duplicate, emitting a message invokes exactly the second
duplicate. -/
theorem duplicate_subscriptions_independent_witness :
    (emit 2 (callUnsub
        (subscribe ((initialWorld : World Nat)) (Consumer.mk (fun _ => []) (fun _ => false))
          .absent).2
        (subscribe
          (subscribe ((initialWorld : World Nat)) (Consumer.mk (fun _ => []) (fun _ => false))
            .absent).1
          (Consumer.mk (fun _ => []) (fun _ => false)) .absent).1) 5 none).map
      (fun r => r.2.2.1) = some [(1, false)] := by
  have hwf : WF scWorld := ⟨by decide, by decide, by decide, by decide⟩
  have h := duplicate_subscriptions_independent scWorld pureConsumer .absent
    (fun _ => false) 5 none hwf (by decide)
  exact h.2.2.2.2

/-- A single consumer side effect preserves the revoked-key invariant: a
delete cannot add the key back and a subscribe issues a strictly larger
key. -/
theorem runAct_freshInv (k : Int) (w : World Msg) (a : Act Msg) (h : FreshInv k w) :
    FreshInv k (runAct w a) := by
  obtain ⟨h1, h2, h3, h4⟩ := h
  cases a with
  | callUnsub x =>
    refine ⟨?_, h2, ?_, h4⟩
    · intro hk
      obtain ⟨s, hs, hsk⟩ := List.mem_map.mp hk
      exact h1 (List.mem_map.mpr ⟨s, List.mem_of_mem_eraseP hs, hsk⟩)
    · intro s hs
      exact h3 s (List.mem_of_mem_eraseP hs)
  | callSubscribe props c =>
    have heq := subscribeOpts_eq w c (buildFilteringOptions props) h4 h3
    show FreshInv k (subscribe w c props).1
    rw [show subscribe w c props = _ from heq]
    refine ⟨?_, by simp only []; omega, ?_, ?_⟩
    · intro hk
      obtain ⟨s, hs, hsk⟩ := List.mem_map.mp hk
      rcases List.mem_append.mp hs with hm | hm
      · exact h1 (List.mem_map.mpr ⟨s, hm, hsk⟩)
      · simp only [List.mem_singleton] at hm
        subst hm
        simp only [mkSubscription] at hsk
        omega
    · intro s hs
      rcases List.mem_append.mp hs with hm | hm
      · have := h3 s hm
        simp only []
        omega
      · simp only [List.mem_singleton] at hm
        subst hm
        simp [mkSubscription]
    · intro e he
      rcases List.mem_append.mp he with hm | hm
      · have := h4 e hm
        simp only []
        omega
      · simp only [List.mem_singleton] at hm
        subst hm
        simp

/-- A consumer's whole effect list preserves the revoked-key invariant. -/
theorem runActs_freshInv (k : Int) (acts : List (Act Msg)) :
    ∀ w : World Msg, FreshInv k w → FreshInv k (runActs w acts) := by
  induction acts with
  | nil => intro w h; exact h
  | cons a rest ih =>
    intro w h
    show FreshInv k (runActs (runAct w a) rest)
    exact ih _ (runAct_freshInv k w a h)

/-- During an emission the live iterator never yields an already-revoked key:
no consumer side effect can bring such a key back into the map, so it appears
neither among the evaluated nor among the invoked keys. -/
theorem emitLoop_excludes_fresh (msg : Msg) (topic : Option Topic) (k : Int) :
    ∀ (fuel : Nat) (w : World Msg) (visited : List Int) (w' : World Msg)
      (ev : List Int) (inv : List (Int × Bool)),
      FreshInv k w →
      emitLoop msg topic fuel w visited = some (w', ev, inv) →
      k ∉ ev ∧ k ∉ inv.map Prod.fst := by
  intro fuel
  induction fuel with
  | zero =>
    intro w visited w' ev inv _ h
    exact absurd h (by simp [emitLoop])
  | succ n ih =>
    intro w visited w' ev inv hInv h
    rw [emitLoop] at h
    cases hf : w.subscriptions.find? (fun s => !(visited.contains s.key)) with
    | none =>
      rw [hf] at h
      dsimp only at h
      simp only [Option.some.injEq, Prod.mk.injEq] at h
      obtain ⟨-, hev, hinv⟩ := h
      rw [← hev, ← hinv]
      simp
    | some s =>
      rw [hf] at h
      dsimp only at h
      have hs : s ∈ w.subscriptions := List.mem_of_find?_eq_some hf
      have hkne : s.key ≠ k := fun hk => hInv.1 (List.mem_map.mpr ⟨s, hs, hk⟩)
      by_cases hc : s.check msg topic = true
      · rw [if_pos hc] at h
        cases hrec : emitLoop msg topic n (runConsumer s.consume msg w).1
            (visited ++ [s.key]) with
        | none =>
          rw [hrec] at h
          exact absurd h (by simp)
        | some r =>
          obtain ⟨w2, ev2, inv2⟩ := r
          rw [hrec] at h
          simp only [Option.some.injEq, Prod.mk.injEq] at h
          obtain ⟨-, hev, hinv⟩ := h
          have hInv2 : FreshInv k (runConsumer s.consume msg w).1 :=
            runActs_freshInv k (s.consume.acts msg) w hInv
          have hrest := ih (runConsumer s.consume msg w).1 (visited ++ [s.key]) w2 ev2 inv2
            hInv2 hrec
          rw [← hev, ← hinv]
          constructor
          · simp only [List.mem_cons, not_or]
            exact ⟨fun hk => hkne hk.symm, hrest.1⟩
          · simp only [List.map_cons, List.mem_cons, not_or]
            exact ⟨fun hk => hkne hk.symm, hrest.2⟩
      · rw [if_neg hc] at h
        cases hrec : emitLoop msg topic n w (visited ++ [s.key]) with
        | none =>
          rw [hrec] at h
          exact absurd h (by simp)
        | some r =>
          obtain ⟨w2, ev2, inv2⟩ := r
          rw [hrec] at h
          simp only [Option.some.injEq, Prod.mk.injEq] at h
          obtain ⟨-, hev, hinv⟩ := h
          have hrest := ih w (visited ++ [s.key]) w2 ev2 inv2 hInv hrec
          rw [← hev, ← hinv]
          refine ⟨?_, hrest.2⟩
          simp only [List.mem_cons, not_or]
          exact ⟨fun hk => hkne hk.symm, hrest.1⟩

/-- Keys live in the ledger are among the ledger's keys. -/
theorem mem_keys_of_mem_liveKeys (regs : List (Int × Bool)) (k : Int)
    (h : k ∈ liveKeys regs) : k ∈ regs.map Prod.fst := by
  obtain ⟨e, he, hk⟩ := List.mem_map.mp h
  exact List.mem_map.mpr ⟨e, List.mem_of_mem_filter he, hk⟩

/-- Revoking a registration does not change the ledger's keys. -/
theorem flipOff_keys (k : Int) (regs : List (Int × Bool)) :
    (flipOff k regs).map Prod.fst = regs.map Prod.fst := by
  unfold flipOff
  rw [List.map_map]
  apply List.map_congr_left
  intro x hx
  by_cases hxk : x.1 = k <;> simp [hxk]

/-- Marking one registration of a duplicate-free ledger as revoked removes
exactly its key from the live keys. -/
theorem liveKeys_flipOff (regs : List (Int × Bool)) (k : Int)
    (hnd : (regs.map Prod.fst).Nodup) :
    liveKeys (flipOff k regs) = (liveKeys regs).eraseP (· == k) := by
  induction regs with
  | nil => rfl
  | cons e rest ih =>
    simp only [List.map_cons, List.nodup_cons] at hnd
    have hrest := ih hnd.2
    have hlive : ∀ (x : Int × Bool) (l : List (Int × Bool)),
        liveKeys (x :: l) = if x.2 then x.1 :: liveKeys l else liveKeys l := by
      intro x l
      cases hx : x.2 <;> simp [liveKeys, List.filter_cons, hx]
    by_cases hk : e.1 = k
    · have hfrest : flipOff k rest = rest := by
        unfold flipOff
        have hcg : ∀ x ∈ rest, (if x.1 = k then (x.1, false) else x) = x := by
          intro x hx
          rw [if_neg]
          intro hxk
          exact hnd.1 (List.mem_map.mpr ⟨x, hx, by omega⟩)
        calc rest.map (fun x => if x.1 = k then (x.1, false) else x)
            = rest.map id := List.map_congr_left hcg
          _ = rest := List.map_id rest
      have hnotin : k ∉ liveKeys rest := by
        intro hmem
        exact hnd.1 (by rw [hk]; exact mem_keys_of_mem_liveKeys rest k hmem)
      have hflip : flipOff k (e :: rest) = (e.1, false) :: rest := by
        unfold flipOff
        simp only [List.map_cons, if_pos hk]
        rw [show rest.map (fun x => if x.1 = k then (x.1, false) else x) =
          flipOff k rest from rfl, hfrest]
      rw [hflip]
      cases he2 : e.2 with
      | true =>
        rw [hlive, hlive, if_neg (by simp), if_pos he2]
        rw [List.eraseP_cons_of_pos (by simp [hk])]
      | false =>
        rw [hlive, hlive, if_neg (by simp), if_neg (by simp [he2])]
        rw [List.eraseP_of_forall_not]
        intro a ha hak
        simp only [beq_iff_eq] at hak
        exact hnotin (hak ▸ ha)
    · have hflip : flipOff k (e :: rest) = e :: flipOff k rest := by
        unfold flipOff
        simp only [List.map_cons, if_neg hk]
      rw [hflip]
      cases he2 : e.2 with
      | true =>
        rw [hlive, hlive, if_pos he2, if_pos he2]
        rw [List.eraseP_cons_of_neg (by simp [hk]), hrest]
      | false =>
        rw [hlive, hlive, if_neg (by simp [he2]), if_neg (by simp [he2])]
        exact hrest

/-- Calling an unsubscribe handle deletes the key from the live key list. -/
theorem pubKeys_callUnsub (w : World Msg) (k : Int) :
    pubKeys (callUnsub k w) = (pubKeys w).eraseP (· == k) := by
  show (w.subscriptions.eraseP (·.key == k)).map Subscription.key = _
  rw [show pubKeys w = w.subscriptions.map Subscription.key from rfl]
  rw [List.eraseP_map]
  rfl

/-- Running an API history against the publisher refines the specification
ledger: the publisher's live keys are exactly the keys of the not-yet-revoked
registrations, in registration order. -/
theorem runOps_refines (ops : List (Op Msg)) :
    ∀ (w : World Msg) (regs : List (Int × Bool)) (handles : List Int),
      pubKeys w = liveKeys regs →
      handles = regs.map Prod.fst →
      (regs.map Prod.fst).Nodup →
      (∀ e ∈ regs, e.1 ≤ w.lastId) →
      (∀ s ∈ w.subscriptions, s.key ≤ w.lastId) →
      (∀ e ∈ w.uniqueSubscriptions, e.1 ≤ w.lastId) →
      pubKeys (runOps ops w handles).1 = liveKeys (simpleRun ops regs w.lastId).1 := by
  induction ops with
  | nil =>
    intro w regs handles h1 _ _ _ _ _
    exact h1
  | cons op rest ih =>
    intro w regs handles h1 h2 h3 h4 h5 h6
    cases op with
    | subscribeOp c props =>
      have heq := subscribeOpts_eq w c (buildFilteringOptions props) h6 h5
      simp only [runOps, simpleRun]
      rw [show subscribe w c props = _ from heq]
      dsimp only
      apply ih
      · show (w.subscriptions ++
            [mkSubscription (w.lastId + 1) c (buildFilteringOptions props)]).map
            Subscription.key = liveKeys (regs ++ [(w.lastId + 1, true)])
        rw [List.map_append]
        have hr : liveKeys (regs ++ [(w.lastId + 1, true)]) =
            liveKeys regs ++ [w.lastId + 1] := by
          simp [liveKeys, List.filter_append]
        rw [hr, show (w.subscriptions.map Subscription.key) = pubKeys w from rfl, h1]
        rfl
      · rw [h2, List.map_append]
        rfl
      · rw [List.map_append, List.nodup_append]
        refine ⟨h3, List.nodup_singleton _, ?_⟩
        intro a ha hb
        simp only [List.map_cons, List.map_nil, List.mem_singleton] at hb
        obtain ⟨e, he, hek⟩ := List.mem_map.mp ha
        have := h4 e he
        omega
      · intro e he
        rcases List.mem_append.mp he with hm | hm
        · have := h4 e hm
          simp only []
          omega
        · simp only [List.mem_singleton] at hm
          subst hm
          simp
      · intro s hs
        rcases List.mem_append.mp hs with hm | hm
        · have := h5 s hm
          simp only []
          omega
        · simp only [List.mem_singleton] at hm
          subst hm
          simp [mkSubscription]
      · intro e he
        rcases List.mem_append.mp he with hm | hm
        · have := h6 e hm
          simp only []
          omega
        · simp only [List.mem_singleton] at hm
          subst hm
          simp
    | revokeOp i =>
      cases hg : regs[i]? with
      | none =>
        have hh : handles[i]? = none := by
          rw [h2]
          simp [hg]
        have hstep : runOps (Op.revokeOp i :: rest) w handles = runOps rest w handles := by
          simp only [runOps, hh]
        have hstep2 : simpleRun (Op.revokeOp i :: rest) regs w.lastId =
            simpleRun rest regs w.lastId := by
          simp only [simpleRun, hg]
        rw [hstep, hstep2]
        exact ih w regs handles h1 h2 h3 h4 h5 h6
      | some e =>
        have hh : handles[i]? = some e.1 := by
          rw [h2]
          simp [hg]
        have hstep : runOps (Op.revokeOp i :: rest) w handles =
            runOps rest (callUnsub e.1 w) handles := by
          simp only [runOps, hh]
        have hstep2 : simpleRun (Op.revokeOp i :: rest) regs w.lastId =
            simpleRun rest (flipOff e.1 regs) w.lastId := by
          simp only [simpleRun, hg]
        rw [hstep, hstep2]
        have hcu : (callUnsub e.1 w).lastId = w.lastId := rfl
        have happ := ih (callUnsub e.1 w) (flipOff e.1 regs) handles
        rw [hcu] at happ
        apply happ
        · rw [pubKeys_callUnsub, liveKeys_flipOff _ _ h3, h1]
        · rw [h2, flipOff_keys]
        · rw [flipOff_keys]
          exact h3
        · intro x hx
          obtain ⟨y, hy, hxy⟩ := List.mem_map.mp hx
          have hb := h4 y hy
          have hfst : x.1 = y.1 := by
            rw [← hxy]
            by_cases hyk : y.1 = e.1 <;> simp [hyk]
          rw [hfst]
          exact hb
        · intro s hs
          exact h5 s (List.mem_of_mem_eraseP hs)
        · exact h6

/-- C9: once a subscription's revoke handle has been called — its key is no
longer live though already issued — an emission started after the revocation
never evaluates or invokes that subscription's consumer, even though consumer
side effects may subscribe or revoke during the emission; and over any history
of subscribe/revoke API calls on a fresh publisher, the map holds exactly the
not-yet-revoked registrations, so `subscriptionsNumber` equals their
number. -/
theorem revoked_subscription_never_delivered (msg : Msg) (topic : Option Topic) (k : Int)
    (fuel : Nat) (w w' : World Msg) (ev : List Int) (inv : List (Int × Bool))
    (res : EmitResult)
    (hrev : k ∉ pubKeys w) (hk : k ≤ w.lastId)
    (hpub : ∀ s ∈ w.subscriptions, s.key ≤ w.lastId)
    (hreg : ∀ e ∈ w.uniqueSubscriptions, e.1 ≤ w.lastId)
    (h : emit fuel w msg topic = some (w', ev, inv, res)) :
    (k ∉ ev ∧ k ∉ inv.map Prod.fst) ∧
    (∀ ops : List (Op Msg),
      pubKeys (runOps ops ((initialWorld : World Msg)) []).1 =
        liveKeys (simpleRun ops [] (-1)).1 ∧
      subscriptionsNumber (runOps ops ((initialWorld : World Msg)) []).1 =
        ((simpleRun ops [] (-1)).1.filter (·.2)).length) := by
  constructor
  · have hloop : emitLoop msg topic fuel w [] = some (w', ev, inv) := by
      unfold emit at h
      cases hl : emitLoop msg topic fuel w [] with
      | none => rw [hl] at h; exact absurd h (by simp)
      | some r =>
        obtain ⟨w1, ev1, inv1⟩ := r
        rw [hl] at h
        simp only [Option.some.injEq, Prod.mk.injEq] at h
        rw [h.1, h.2.1, h.2.2.1]
    exact emitLoop_excludes_fresh msg topic k fuel w [] w' ev inv ⟨hrev, hk, hpub, hreg⟩ hloop
  · intro ops
    have h0 := runOps_refines ops ((initialWorld : World Msg)) [] [] rfl rfl
      (by simp) (by simp) (by simp [initialWorld]) (by simp [initialWorld])
    refine ⟨h0, ?_⟩
    have hsn : subscriptionsNumber (runOps ops ((initialWorld : World Msg)) []).1 =
        (pubKeys (runOps ops ((initialWorld : World Msg)) []).1).length := by
      simp [subscriptionsNumber, pubKeys]
    rw [hsn, h0]
    simp only [liveKeys, List.length_map]
    rfl

/-- Witness for C9: after revoking key 0 of the scenario world, an emission
evaluates and invokes only key 1; the ledger refinement holds on a
subscribe-then-revoke history. -/
theorem revoked_subscription_never_delivered_witness :
    (((0 : Int) ∉ [(1 : Int)]) ∧ ((0 : Int) ∉ ([((1 : Int), false)].map Prod.fst))) ∧
    pubKeys (runOps [Op.subscribeOp pureConsumer .absent, Op.revokeOp 0]
        ((initialWorld : World Nat)) []).1 =
      liveKeys (simpleRun [Op.subscribeOp (pureConsumer : Consumer Nat) .absent, Op.revokeOp 0]
        [] (-1)).1 := by
  have h := revoked_subscription_never_delivered 7 none 0 3 (callUnsub 0 scWorld)
    (callUnsub 0 scWorld) [1] [(1, false)] .sync (by decide) (by decide) (by decide)
    (by decide) rfl
  exact ⟨h.1, (h.2 [Op.subscribeOp pureConsumer .absent, Op.revokeOp 0]).1⟩

/-- C1 counterexample: the claim that emission iterates a stable snapshot of
the live subscription set taken at call start fails on the scenario world.
The call-start snapshot is keys `[0, 1]`, but the emission evaluates exactly
keys `[0, 2]`: subscription 1, live at call start and revoked during the same
emission by subscription 0's consumer, is never evaluated (the claim says it
is still included), and subscription 2, added during the emission, is
evaluated (the claim says it is not included). -/
theorem emission_snapshot_counterexample :
    pubKeys scWorld = [0, 1] ∧
    (emit 5 scWorld 0 none).map (fun r => r.2.1) = some [0, 2] ∧
    (emit 5 scWorld 0 none).map (fun r => r.2.1) ≠ some (pubKeys scWorld) := by
  refine ⟨rfl, rfl, by decide⟩

/-- C1 amended: the set of subscriptions whose match predicate is evaluated
during an emission is not a stable call-start snapshot: the emitter folds over
the LIVE map iterator, so a subscription revoked during the same emission by
an earlier consumer's side effect, before the iterator reaches it, is excluded
from the iteration, and a subscription added during the emission is included.
For every message and all consumer pending-behaviours: the call-start live set
is keys `[0, 1]`, the evaluated keys are `[0, 2]` (key 1 was revoked mid-
emission and skipped; key 2 was subscribed mid-emission and visited), and the
final live set is `[0, 2]`. -/
theorem emission_iterates_live_map (msg : Msg) (pendA pendB : Msg → Bool) :
    pubKeys (liveWorld pendA pendB) = [0, 1] ∧
    (emit 5 (liveWorld pendA pendB) msg none).map (fun r => r.2.1) = some [0, 2] ∧
    (emit 5 (liveWorld pendA pendB) msg none).map (fun r => pubKeys r.1) = some [0, 2] :=
  ⟨rfl, rfl, rfl⟩

end EasyPubSub
